import Mathlib

/-! CollaborativeEditor: live synchronisation, conflict policy and page store.

A shallow embedding of `controllers/editor_controller.go`, `services/editor_service.go`
and `models/page.go`.

Conventions of the embedding:
* a Go `string` is a Lean `String`; helper functions work on its list of characters;
* a Go `map[K]V` is an association list (`GoMap`); the list order stands for one of the
  iteration orders the runtime may choose, and every theorem holds for all of them;
* a `*websocket.Conn` is a natural number (pointer identity);
* a `time.Time` is an integer count of nanoseconds on the process clock, a
  `time.Duration` an integer count of nanoseconds saturating at the `int64` bounds;
* the gorm database handle is the list of rows of the `pages` table, and the outcome of
  each statement that may fail for reasons outside the program is an explicit input;
* handlers are run one at a time (no interleaving of goroutines).
-/

namespace CollaborativeEditor

/-! ## Go strings -/

/-- Go `strings.HasPrefix` on character lists. -/
def hasPrefix : List Char → List Char → Bool
  | _, [] => true
  | [], _ :: _ => false
  | c :: cs, p :: ps => if c = p then hasPrefix cs ps else false

/-- Go `strings.Contains` on character lists: some suffix of `s` starts with `sub`. -/
def containsChars : List Char → List Char → Bool
  | [], sub => hasPrefix [] sub
  | c :: cs, sub => hasPrefix (c :: cs) sub || containsChars cs sub

/-- Go `strings.Contains(s, substr)`. -/
def stringsContains (s substr : String) : Bool :=
  containsChars s.data substr.data

/-- Go `strings.Split(s, sep)` for a one-character separator, on character lists. -/
def splitChars (sep : Char) : List Char → List (List Char)
  | [] => [[]]
  | c :: cs =>
    if c = sep then [] :: splitChars sep cs
    else
      match splitChars sep cs with
      | [] => [[c]]
      | h :: t => (c :: h) :: t

/-- Go `strings.Split(s, sep)` for a one-character separator. -/
def stringsSplit (s : String) (sep : Char) : List String :=
  (splitChars sep s.data).map String.mk

/-- Go `strings.Trim(s, cutset)` for a one-character cutset. -/
def stringsTrim (s : String) (cut : Char) : String :=
  String.mk ((((s.data.dropWhile (fun c => c = cut)).reverse).dropWhile (fun c => c = cut)).reverse)

/-! ## Go maps -/

/-- A Go map as an association list. -/
abbrev GoMap (κ ν : Type) := List (κ × ν)

namespace GoMap

variable {κ ν : Type} [DecidableEq κ]

/-- The comma-ok lookup `v, ok := m[k]`. -/
def get? (m : GoMap κ ν) (k : κ) : Option ν :=
  (m.find? (fun e => e.1 = k)).map (fun e => e.2)

/-- The builtin `delete(m, k)`. -/
def delete (m : GoMap κ ν) (k : κ) : GoMap κ ν :=
  m.filter (fun e => e.1 ≠ k)

/-- The assignment `m[k] = v`. -/
def set (m : GoMap κ ν) (k : κ) (v : ν) : GoMap κ ν :=
  delete m k ++ [(k, v)]

/-- Keys of the map. -/
def keys (m : GoMap κ ν) : List κ := m.map (fun e => e.1)

end GoMap

/-! ## Go integers -/

/-- Smallest `time.Duration` (`math.MinInt64` nanoseconds). -/
def minDuration : Int := -(2 ^ 63)

/-- Largest `time.Duration` (`math.MaxInt64` nanoseconds). -/
def maxDuration : Int := 2 ^ 63 - 1

/-- Go `time.Second` in nanoseconds. -/
def Second : Int := 1000000000

/-- Go `Time.Sub`: the difference `t - u`, saturated to the range of `time.Duration`. -/
def timeSub (t u : Int) : Int :=
  if t - u < minDuration then minDuration
  else if maxDuration < t - u then maxDuration
  else t - u

/-- Go `time.Since(t)` when the clock reads `now`. -/
def timeSince (now t : Int) : Int := timeSub now t

/-! ## models/page.go -/

/-- Row of the `pages` table (`models.Page`). -/
structure Page where
  ID : Nat
  FileName : String
  ParentID : Option Nat
  Level : Int
  CreatedAt : Int
  UpdatedAt : Int
  Content : String
deriving DecidableEq, Repr

/-- Go zero value `models.Page{}`. -/
def Page.zero : Page :=
  { ID := 0, FileName := "", ParentID := none, Level := 0, CreatedAt := 0, UpdatedAt := 0,
    Content := "" }

/-! ## The gorm statements the program issues -/

/-- Row of least primary key in a list of rows (`ORDER BY id LIMIT 1`). -/
def minByID : List Page → Option Page
  | [] => none
  | p :: ps =>
    match minByID ps with
    | none => some p
    | some q => if p.ID ≤ q.ID then some p else some q

/-- Statement `db.Where(cond).First(&page)`: the matching row of least primary key, `none` for
`gorm.ErrRecordNotFound`. -/
def dbFirst (cond : Page → Bool) (db : List Page) : Option Page :=
  minByID (db.filter cond)

/-- Statement `db.Save(&page)` for a page read from the table: the row with the page's
primary key is replaced by the page. -/
def dbSave (db : List Page) (page : Page) : List Page :=
  db.map (fun r => if r.ID = page.ID then page else r)

/-! ## services/editor_service.go: HTML generation -/

/-- First raw string literal of GenerateHTML2Save (up to the opening title tag). -/
def html2SaveHead : String :=
  "<!DOCTYPE html>\n" ++
  "\t<html lang=\"en\">\n" ++
  "\t<head>\n" ++
  "\t\t<meta charset=\"UTF-8\">\n" ++
  "\t\t<meta name=\"viewport\" content=\"width=device-width, initial-scale=1.0\">\n" ++
  "\t\t<title>"

/-- Second raw string literal of GenerateHTML2Save (title suffix, style block, opening textarea tag). -/
def html2SaveMid : String :=
  " - Editor</title>\n" ++
  "\t\t<style>\n" ++
  "\t\t\tbody, html \x7b\n" ++
  "\t\t\t\tmargin: 0;\n" ++
  "\t\t\t\tpadding: 0;\n" ++
  "\t\t\t\theight: 100%;\n" ++
  "\t\t\t\twidth: 100%;\n" ++
  "\t\t\t\tdisplay: flex;\n" ++
  "\t\t\t\tjustify-content: center;\n" ++
  "\t\t\t\talign-items: center;\n" ++
  "\t\t\t\tbackground-color: #f9f9f9;\n" ++
  "\t\t\t\x7d\n" ++
  "\t\t\ttextarea \x7b\n" ++
  "\t\t\t\twidth: 100%;\n" ++
  "\t\t\t\theight: 100%;\n" ++
  "\t\t\t\tpadding: 10px;\n" ++
  "\t\t\t\tborder: none;\n" ++
  "\t\t\t\tresize: none;\n" ++
  "\t\t\t\toutline: none;\n" ++
  "\t\t\t\tfont-family: Arial, sans-serif;\n" ++
  "\t\t\t\tfont-size: 16px;\n" ++
  "\t\t\t\tline-height: 1.5;\n" ++
  "\t\t\t\tbox-sizing: border-box;\n" ++
  "\t\t\t\toverflow: auto;\n" ++
  "\t\t\t\x7d\n" ++
  "\t\t\ttextarea:focus \x7b\n" ++
  "\t\t\t\toutline: none;\n" ++
  "\t\t\t\x7d\n" ++
  "\t\t</style>\n" ++
  "\t</head>\n" ++
  "\t<body>\n" ++
  "\t\t<textarea id=\"editor\" placeholder=\"Write here...\">"

/-- Third raw string literal of GenerateHTML2Save (closing textarea tag to the end). -/
def html2SaveTail : String :=
  "</textarea>\n" ++
  "\t\t<script src=\"/static/js/editor.js\"></script>\n" ++
  "\t</body>\n" ++
  "\t</html>"

/-- Replacement of one character by Go `html.EscapeString`: the five characters
`&`, apostrophe, `<`, `>` and the double quote become entities. -/
def escapeChar (c : Char) : List Char :=
  if c = '&' then "&amp;".data
  else if c = Char.ofNat 39 then "&#39;".data
  else if c = '<' then "&lt;".data
  else if c = '>' then "&gt;".data
  else if c = Char.ofNat 34 then "&#34;".data
  else [c]

/-- Go `html.EscapeString`. -/
def htmlEscapeString (s : String) : String :=
  String.mk (s.data.flatMap escapeChar)

/-- Function `GenerateHTML2Save`: escapes the content and injects it into the textarea. -/
def GenerateHTML2Save (subdomain content : String) : String :=
  let escapedContent := htmlEscapeString content
  html2SaveHead ++ subdomain ++ html2SaveMid ++ escapedContent ++ html2SaveTail

/-- Function `GenerateHTMLFromPage`: returns the stored HTML. -/
def GenerateHTMLFromPage (content : String) : String := content

/-! ## The regular expression of `ExtractTextareaContent`

Go's `regexp` returns the leftmost match and, among the matches starting there, the one a
backtracking engine finds first.  The pattern only needs literals, the lazy `.*?` (under
`(?s)`, so `.` is any character) and one capture group; the matcher below is that
backtracking search. -/

/-- Instructions of a compiled pattern. -/
inductive ReNode where
  | lit (cs : List Char)
  | lazyAny
  | capOpen
  | capClose
deriving DecidableEq, Repr

/-- Capture slots of group 1, each the input remaining when the parenthesis was passed. -/
structure Capture where
  openAt : List Char
  closeAt : List Char
deriving DecidableEq, Repr

/-- Literal match: the input remaining after the literal, if the input starts with it. -/
def dropLiteral : List Char → List Char → Option (List Char)
  | [], s => some s
  | _ :: _, [] => none
  | p :: ps, c :: cs => if p = c then dropLiteral ps cs else none

/-- Lazy iteration: try the continuation here first, and only if it fails consume one more
character.  It is both the `.*?` of the pattern and the search for the leftmost start. -/
def lazyStar {α : Type} (k : List Char → Option α) : List Char → Option α
  | [] => k []
  | c :: cs =>
    match k (c :: cs) with
    | some r => some r
    | none => lazyStar k cs

/-- Backtracking match of a pattern anchored at the start of the input. -/
def matchNodes : List ReNode → Capture → List Char → Option Capture
  | [], cap, _ => some cap
  | ReNode.lit l :: rest, cap, s =>
    match dropLiteral l s with
    | some s' => matchNodes rest cap s'
    | none => none
  | ReNode.lazyAny :: rest, cap, s => lazyStar (matchNodes rest cap) s
  | ReNode.capOpen :: rest, cap, s => matchNodes rest { cap with openAt := s } s
  | ReNode.capClose :: rest, cap, s => matchNodes rest { cap with closeAt := s } s

/-- Text of group 1: from where the group opened up to where it closed. -/
def Capture.text (cap : Capture) : List Char :=
  cap.openAt.take (cap.openAt.length - cap.closeAt.length)

/-- Go `re.FindStringSubmatch(s)` restricted to group 1: `none` when nothing matches. -/
def findSubmatch1 (re : List ReNode) (s : List Char) : Option (List Char) :=
  (lazyStar (matchNodes re { openAt := [], closeAt := [] }) s).map Capture.text

/-- The pattern `(?s)<textarea.*?>(.*?)</textarea>`. -/
def textareaRe : List ReNode :=
  [ReNode.lit "<textarea".data, ReNode.lazyAny, ReNode.lit ">".data,
   ReNode.capOpen, ReNode.lazyAny, ReNode.capClose, ReNode.lit "</textarea>".data]

/-- Function `ExtractTextareaContent`: what is inside `<textarea ...>` and `</textarea>`,
the empty string when the pattern does not match. -/
def ExtractTextareaContent (htmlContent : String) : String :=
  match findSubmatch1 textareaRe htmlContent.data with
  | some m => String.mk m
  | none => ""

/-! ## services/editor_service.go: the page store -/

/-- Outcome of the database statements that may fail for reasons outside the program
(connection lost, constraint violation): `true` means the statement returns an error
other than `gorm.ErrRecordNotFound`. -/
structure DBFaults where
  existsErr : Bool
  parentErr : Bool
  countErr : Bool
  createErr : Bool
  lookupErr : Bool
  saveErr : Bool
deriving DecidableEq, Repr

/-- Every statement goes through. -/
def DBFaults.none : DBFaults :=
  { existsErr := false, parentErr := false, countErr := false, createErr := false,
    lookupErr := false, saveErr := false }

/-- Loop of `GetPageFromURL` over the path segments, carrying `parentID`, `level` and
`page`.  The counter `level` starts at 0 and grows by one per segment, so it stays far
below the bound of Go's `int`. -/
def GetPageFromURL.loop (f : DBFaults) (db : List Page) :
    List String → Option Nat → Int → Page → Except String Page
  | [], _, _, page => Except.ok page
  | sub :: rest, parentID, level, _ =>
    if f.lookupErr then Except.error "error querying page"
    else
      match dbFirst (fun p => p.FileName = sub ∧ p.ParentID = parentID ∧ p.Level = level) db with
      | Option.none => Except.error "page not found"
      | some page => GetPageFromURL.loop f db rest (some page.ID) (level + 1) page

/-- Function `GetPageFromURL`: resolves a slash-separated path to its page. -/
def GetPageFromURL (f : DBFaults) (db : List Page) (url : String) : Except String Page :=
  GetPageFromURL.loop f db (stringsSplit url '/') Option.none 0 Page.zero

/-! ## controllers/editor_controller.go -/

/-- A `*websocket.Conn`, by pointer identity. -/
abbrev Conn := Nat

/-- Request body of the save endpoint (`SaveRequest`). -/
structure SaveRequest where
  Content : String
  Subdomain : String
  ForceOverwrite : Bool
  UserKey : String
deriving DecidableEq, Repr

/-- Entry of the conflict tracker (`lastUpdateInfo`). -/
structure lastUpdateInfo where
  UpdatedAt : Int
  UserKey : String
  Conn : Option Conn
deriving DecidableEq, Repr

/-- What the program does to connections: a delivered text message, or a close. -/
inductive WsEvent where
  | wrote (conn : Conn) (content : String)
  | closed (conn : Conn)
deriving DecidableEq, Repr

/-- The process-wide state: the `pages` table behind `db`, the conflict tracker
`LastUpdateConn` and the connection registry `clients`. -/
structure Server where
  db : List Page
  LastUpdateConn : GoMap String lastUpdateInfo
  clients : GoMap Conn String
deriving DecidableEq, Repr

/-- Body of `for conn, path := range clients` shared by `NotifyClients` and
`notifyWsClients`: the entries still to visit, then the registry and the events so far.
`writeOk conn` tells whether `conn.WriteMessage` succeeds. -/
def rangeClients (fullPath content : String) (writeOk : Conn → Bool) :
    List (Conn × String) → GoMap Conn String × List WsEvent → GoMap Conn String × List WsEvent
  | [], st => st
  | (conn, path) :: rest, (clients, log) =>
    if path = fullPath then
      if writeOk conn then
        rangeClients fullPath content writeOk rest (clients, log ++ [WsEvent.wrote conn content])
      else
        rangeClients fullPath content writeOk rest
          (GoMap.delete clients conn, log ++ [WsEvent.closed conn])
    else rangeClients fullPath content writeOk rest (clients, log)

/-- Function `NotifyClients`, called after a save: the registry afterwards and the events. -/
def NotifyClients (fullPath content : String) (writeOk : Conn → Bool)
    (clients : GoMap Conn String) : GoMap Conn String × List WsEvent :=
  rangeClients fullPath content writeOk clients (clients, [])

/-- Function `notifyWsClients`, called for every inbound message of a live connection. -/
def notifyWsClients (fullPath content : String) (writeOk : Conn → Bool)
    (clients : GoMap Conn String) : GoMap Conn String × List WsEvent :=
  rangeClients fullPath content writeOk clients (clients, [])

/-- Connections registered under a path: the entries the range loop of a broadcast selects
with `path == fullPath`. -/
def connectionsFor (path : String) (clients : GoMap Conn String) : List Conn :=
  (clients.filter (fun e => e.2 = path)).map (fun e => e.1)

/-- Read loop of `WebSocketHandler`: every inbound message is handed to `notifyWsClients`
until `ReadMessage` fails (the end of the list). -/
def WebSocketHandler.readLoop (fullPath : String) (writeOk : Conn → Bool) :
    List String → GoMap Conn String × List WsEvent → GoMap Conn String × List WsEvent
  | [], st => st
  | msg :: rest, (clients, log) =>
    let r := notifyWsClients fullPath msg writeOk clients
    WebSocketHandler.readLoop fullPath writeOk rest (r.1, log ++ r.2)

/-- Function `WebSocketHandler` for one connection from upgrade to return: `upgraded` is the
connection returned by `upgrader.Upgrade` (`none` when the upgrade fails) and `inbound` the
messages read before the read error. -/
def WebSocketHandler (upgraded : Option Conn) (rawParam : String) (inbound : List String)
    (writeOk : Conn → Bool) (clients : GoMap Conn String) : GoMap Conn String × List WsEvent :=
  let fullPath := stringsTrim rawParam '/'
  match upgraded with
  | none => (clients, [])
  | some conn =>
    let r := WebSocketHandler.readLoop fullPath writeOk inbound
      (GoMap.set clients conn fullPath, [])
    (GoMap.delete r.1 conn, r.2 ++ [WsEvent.closed conn])

/-- Operations on the registry: `clients[conn] = path` and `delete(clients, conn)`. -/
inductive RegistryOp where
  | register (conn : Conn) (path : String)
  | unregister (conn : Conn)
deriving DecidableEq, Repr

/-- Effect of one registry operation. -/
def RegistryOp.apply (clients : GoMap Conn String) : RegistryOp → GoMap Conn String
  | RegistryOp.register conn path => GoMap.set clients conn path
  | RegistryOp.unregister conn => GoMap.delete clients conn

/-- Effect of a sequence of registry operations, first to last. -/
def runOps (ops : List RegistryOp) (clients : GoMap Conn String) : GoMap Conn String :=
  ops.foldl RegistryOp.apply clients

/-- Handles a sequence registers, in order, one entry per `register`. -/
def registeredHandles : List RegistryOp → List Conn
  | [] => []
  | RegistryOp.register conn _ :: rest => conn :: registeredHandles rest
  | RegistryOp.unregister _ :: rest => registeredHandles rest

/-- Order in which the program issues the registry operations, `seen` being the handles
registered so far: `delete(clients, conn)` is only ever executed for a handle registered
earlier.  The handler of `conn` deletes after its own registration (lines 215 to 217 come
before lines 226 to 228), and a broadcast deletes a key it has just read from the map
(lines 243 and 263). -/
def programOrder : List Conn → List RegistryOp → Bool
  | _, [] => true
  | seen, RegistryOp.register conn _ :: rest => programOrder (conn :: seen) rest
  | seen, RegistryOp.unregister conn :: rest => decide (conn ∈ seen) && programOrder seen rest

/-- Answers of the save endpoint. -/
inductive Response where
  | badRequest
  | notFound
  | conflict (content : String)
  | storageError
  | saved
deriving DecidableEq, Repr

/-- What a run of `SavePageContentHandler` reads from outside the program: the three clock
readings (`time.Since` of the conflict check, `time.Now` for the page, `time.Now` for the
tracker record), the outcome of the database statements and of the socket writes. -/
structure SaveEnv where
  sinceNow : Int
  pageNow : Int
  recordNow : Int
  faults : DBFaults
  writeOk : Conn → Bool

/-- Call `c.ShouldBindJSON(&req)`: `body` is the decoded JSON (`none` when it does not
decode); the `binding:"required"` tag rejects an empty `subdomain`. -/
def ShouldBindJSON (body : Option SaveRequest) : Option SaveRequest :=
  match body with
  | none => none
  | some req => if req.Subdomain = "" then none else some req

/-- Function `SavePageContentHandler`: the answer, the state afterwards and the events. -/
def SavePageContentHandler (body : Option SaveRequest) (env : SaveEnv) (s : Server) :
    Response × Server × List WsEvent :=
  match ShouldBindJSON body with
  | none => (Response.badRequest, s, [])
  | some req =>
    match GetPageFromURL env.faults s.db req.Subdomain with
    | Except.error _ => (Response.notFound, s, [])
    | Except.ok page =>
      let found := GoMap.get? s.LastUpdateConn req.Subdomain
      let lastInfo : lastUpdateInfo :=
        found.getD { UpdatedAt := 0, UserKey := "", Conn := none }
      let existsRec := found.isSome
      let conflict : Bool :=
        if existsRec && !req.ForceOverwrite then
          if lastInfo.UserKey ≠ req.UserKey then
            if timeSince env.sinceNow lastInfo.UpdatedAt < 10 * Second then true else false
          else false
        else false
      if conflict then (Response.conflict page.Content, s, [])
      else
        let newHTML := GenerateHTML2Save req.Subdomain req.Content
        let page := { page with Content := newHTML, UpdatedAt := env.pageNow }
        if env.faults.saveErr then (Response.storageError, s, [])
        else
          let db := dbSave s.db page
          let tracker := GoMap.set s.LastUpdateConn req.Subdomain
            { UpdatedAt := env.recordNow, UserKey := req.UserKey, Conn := lastInfo.Conn }
          let r := NotifyClients req.Subdomain req.Content env.writeOk s.clients
          (Response.saved, { db := db, LastUpdateConn := tracker, clients := r.1 }, r.2)

/-- The conflict test of `SavePageContentHandler` (lines 115 to 125), as one condition. -/
def conflictFlagged (req : SaveRequest) (env : SaveEnv) (s : Server) : Bool :=
  match GoMap.get? s.LastUpdateConn req.Subdomain with
  | some info =>
    !req.ForceOverwrite && decide (info.UserKey ≠ req.UserKey)
      && decide (timeSince env.sinceNow info.UpdatedAt < 10 * Second)
  | none => false

/-- A row transformation keeps the columns the lookups read. -/
def KeepsKeys (g : Page → Page) (db : List Page) : Prop :=
  ∀ r ∈ db, (g r).ID = r.ID ∧ (g r).FileName = r.FileName ∧ (g r).ParentID = r.ParentID ∧
    (g r).Level = r.Level

/-! ## Sample data -/

/-- Table with the root page `team` and its child `docs`. -/
def sampleDB : List Page :=
  [{ Page.zero with ID := 1, FileName := "team", Content := "root" },
   { Page.zero with ID := 2, FileName := "docs", ParentID := some 1, Level := 1,
                    Content := "stored" }]

/-- The page `team/docs` of `sampleDB`. -/
def samplePage : Page :=
  { Page.zero with ID := 2, FileName := "docs", ParentID := some 1, Level := 1,
                   Content := "stored" }

/-- State in which user `u1` saved `team/docs` at clock value 0 and connections 1 and 2 view
the root page `team`. -/
def sampleServer : Server :=
  { db := sampleDB,
    LastUpdateConn := [("team/docs", { UpdatedAt := 0, UserKey := "u1", Conn := none })],
    clients := [(1, "team"), (2, "team")] }

/-- Save of `final` to `team/docs` by user `u2`. -/
def sampleReq : SaveRequest :=
  { Content := "final", Subdomain := "team/docs", ForceOverwrite := false, UserKey := "u2" }

/-- Environment in which the save is evaluated 5 seconds after clock value 0. -/
def envAfter5s : SaveEnv :=
  { sinceNow := 5 * Second, pageNow := 5 * Second, recordNow := 5 * Second,
    faults := DBFaults.none, writeOk := fun _ => true }

/-- Environment in which the save is evaluated 10 seconds after clock value 0. -/
def envAfter10s : SaveEnv :=
  { sinceNow := 10 * Second, pageNow := 10 * Second, recordNow := 10 * Second,
    faults := DBFaults.none, writeOk := fun _ => true }

/-- Environment in which the repository write fails, 10 seconds after clock value 0. -/
def envSaveFails : SaveEnv :=
  { sinceNow := 10 * Second, pageNow := 10 * Second, recordNow := 10 * Second,
    faults := { DBFaults.none with saveErr := true }, writeOk := fun _ => true }

/-- Environment in which the save is evaluated at clock value 0. -/
def envAt0 : SaveEnv :=
  { sinceNow := 0, pageNow := 0, recordNow := 0, faults := DBFaults.none,
    writeOk := fun _ => true }

/-- State before anybody saved: the sample table, an empty tracker, connections 1 and 2
viewing `team`. -/
def freshServer : Server :=
  { db := sampleDB, LastUpdateConn := [], clients := [(1, "team"), (2, "team")] }

/-- Save of `draft` to `team/docs` by user `u1`. -/
def firstReq : SaveRequest :=
  { Content := "draft", Subdomain := "team/docs", ForceOverwrite := false, UserKey := "u1" }

/-- Forced save of `final` to `team/docs` by user `u2`. -/
def forcedReq : SaveRequest :=
  { Content := "final", Subdomain := "team/docs", ForceOverwrite := true, UserKey := "u2" }

/-- Save of `final` to the root page `team` by user `u1`. -/
def rootReq : SaveRequest :=
  { Content := "final", Subdomain := "team", ForceOverwrite := false, UserKey := "u1" }

/-- Part of `html2SaveMid` before the opening textarea tag. -/
def midBeforeTextarea : String :=
  " - Editor</title>\n" ++
  "\t\t<style>\n" ++
  "\t\t\tbody, html \x7b\n" ++
  "\t\t\t\tmargin: 0;\n" ++
  "\t\t\t\tpadding: 0;\n" ++
  "\t\t\t\theight: 100%;\n" ++
  "\t\t\t\twidth: 100%;\n" ++
  "\t\t\t\tdisplay: flex;\n" ++
  "\t\t\t\tjustify-content: center;\n" ++
  "\t\t\t\talign-items: center;\n" ++
  "\t\t\t\tbackground-color: #f9f9f9;\n" ++
  "\t\t\t\x7d\n" ++
  "\t\t\ttextarea \x7b\n" ++
  "\t\t\t\twidth: 100%;\n" ++
  "\t\t\t\theight: 100%;\n" ++
  "\t\t\t\tpadding: 10px;\n" ++
  "\t\t\t\tborder: none;\n" ++
  "\t\t\t\tresize: none;\n" ++
  "\t\t\t\toutline: none;\n" ++
  "\t\t\t\tfont-family: Arial, sans-serif;\n" ++
  "\t\t\t\tfont-size: 16px;\n" ++
  "\t\t\t\tline-height: 1.5;\n" ++
  "\t\t\t\tbox-sizing: border-box;\n" ++
  "\t\t\t\toverflow: auto;\n" ++
  "\t\t\t\x7d\n" ++
  "\t\t\ttextarea:focus \x7b\n" ++
  "\t\t\t\toutline: none;\n" ++
  "\t\t\t\x7d\n" ++
  "\t\t</style>\n" ++
  "\t</head>\n" ++
  "\t<body>\n" ++
  "\t\t"

/-- Attributes of the opening textarea tag in `html2SaveMid`. -/
def midAttributes : String :=
  " id=\"editor\" placeholder=\"Write here...\""

/-- Part of `html2SaveTail` after the closing textarea tag. -/
def tailAfterTextarea : String :=
  "\n" ++
  "\t\t<script src=\"/static/js/editor.js\"></script>\n" ++
  "\t</body>\n" ++
  "\t</html>"

/-- Test that a pattern and a text differ at some position both of them have. -/
def clash : List Char → List Char → Bool
  | p :: ps, c :: cs => if p = c then clash ps cs else true
  | _, _ => false

/-- Test that every non-empty suffix of the text clashes with the pattern. -/
def allSuffixesClash (pat : List Char) : List Char → Bool
  | [] => true
  | c :: cs => clash pat (c :: cs) && allSuffixesClash pat cs

/-! ## Lemmas on maps and time -/

theorem GoMap.get?_cons {κ ν : Type} [DecidableEq κ] (e : κ × ν) (m : GoMap κ ν) (p : κ) :
    GoMap.get? (e :: m) p = if e.1 = p then some e.2 else GoMap.get? m p := by
  unfold GoMap.get?
  by_cases h : e.1 = p
  · rw [List.find?_cons_of_pos _ (by simpa using h), if_pos h]; rfl
  · rw [List.find?_cons_of_neg _ (by simpa using h), if_neg h]

theorem GoMap.delete_cons {κ ν : Type} [DecidableEq κ] (e : κ × ν) (m : GoMap κ ν) (k : κ) :
    GoMap.delete (e :: m) k = if e.1 = k then GoMap.delete m k else e :: GoMap.delete m k := by
  unfold GoMap.delete
  by_cases h : e.1 = k
  · rw [List.filter_cons_of_neg (by simpa using h), if_pos h]
  · rw [List.filter_cons_of_pos (by simpa using h), if_neg h]

theorem GoMap.get?_delete_self {κ ν : Type} [DecidableEq κ] (m : GoMap κ ν) (k : κ) :
    GoMap.get? (GoMap.delete m k) k = none := by
  induction m with
  | nil => rfl
  | cons e m ih =>
    rw [GoMap.delete_cons]
    by_cases h : e.1 = k
    · rw [if_pos h]; exact ih
    · rw [if_neg h, GoMap.get?_cons, if_neg h]; exact ih

theorem GoMap.get?_delete_other {κ ν : Type} [DecidableEq κ] (m : GoMap κ ν) (k p : κ)
    (hp : p ≠ k) : GoMap.get? (GoMap.delete m k) p = GoMap.get? m p := by
  induction m with
  | nil => rfl
  | cons e m ih =>
    rw [GoMap.delete_cons, GoMap.get?_cons]
    by_cases h : e.1 = k
    · have hep : e.1 ≠ p := fun h' => hp (h'.symm.trans h)
      rw [if_pos h, if_neg hep]; exact ih
    · rw [if_neg h, GoMap.get?_cons, ih]

theorem GoMap.get?_append {κ ν : Type} [DecidableEq κ] (m n : GoMap κ ν) (p : κ) :
    GoMap.get? (m ++ n) p = (GoMap.get? m p).orElse (fun _ => GoMap.get? n p) := by
  induction m with
  | nil => rfl
  | cons e m ih =>
    rw [List.cons_append, GoMap.get?_cons, GoMap.get?_cons]
    by_cases hep : e.1 = p
    · rw [if_pos hep, if_pos hep]; rfl
    · rw [if_neg hep, if_neg hep]; exact ih

theorem GoMap.get?_set_self {κ ν : Type} [DecidableEq κ] (m : GoMap κ ν) (k : κ) (v : ν) :
    GoMap.get? (GoMap.set m k v) k = some v := by
  rw [GoMap.set, GoMap.get?_append, GoMap.get?_delete_self, GoMap.get?_cons, if_pos rfl]
  rfl

theorem GoMap.get?_set_other {κ ν : Type} [DecidableEq κ] (m : GoMap κ ν) (k p : κ) (v : ν)
    (hp : p ≠ k) : GoMap.get? (GoMap.set m k v) p = GoMap.get? m p := by
  have hk : ¬ ((k, v).1 = p) := fun h => hp h.symm
  rw [GoMap.set, GoMap.get?_append, GoMap.get?_delete_other m k p hp, GoMap.get?_cons, if_neg hk]
  cases GoMap.get? m p <;> rfl

theorem GoMap.delete_of_not_mem {κ ν : Type} [DecidableEq κ] (m : GoMap κ ν) (k : κ)
    (hk : k ∉ GoMap.keys m) : GoMap.delete m k = m := by
  unfold GoMap.delete
  rw [List.filter_eq_self]
  intro e he
  have : e.1 ≠ k := by
    intro h
    apply hk
    rw [← h]
    exact List.mem_map_of_mem (fun e => e.1) he
  simpa using this

theorem GoMap.not_mem_keys_delete {κ ν : Type} [DecidableEq κ] (m : GoMap κ ν) (k : κ) :
    k ∉ GoMap.keys (GoMap.delete m k) := by
  simp [GoMap.keys, GoMap.delete]

theorem GoMap.mem_keys_delete {κ ν : Type} [DecidableEq κ] (m : GoMap κ ν) (k p : κ) :
    p ∈ GoMap.keys (GoMap.delete m k) ↔ p ∈ GoMap.keys m ∧ p ≠ k := by
  simp only [GoMap.keys, GoMap.delete, List.mem_map, List.mem_filter]
  constructor
  · rintro ⟨e, ⟨he, hne⟩, rfl⟩
    exact ⟨⟨e, he, rfl⟩, by simpa using hne⟩
  · rintro ⟨⟨e, he, rfl⟩, hne⟩
    exact ⟨e, ⟨he, by simpa using hne⟩, rfl⟩

theorem GoMap.mem_keys_set {κ ν : Type} [DecidableEq κ] (m : GoMap κ ν) (k p : κ) (v : ν) :
    p ∈ GoMap.keys (GoMap.set m k v) ↔ p = k ∨ p ∈ GoMap.keys m := by
  have h := GoMap.mem_keys_delete m k p
  simp only [GoMap.keys] at h
  simp only [GoMap.set, GoMap.keys, List.map_append, List.mem_append, h, List.map_cons,
    List.map_nil, List.mem_singleton]
  constructor
  · rintro (⟨h1, _⟩ | h1)
    · exact Or.inr h1
    · exact Or.inl h1
  · rintro (h1 | h1)
    · exact Or.inr h1
    · by_cases hk : p = k
      · exact Or.inr hk
      · exact Or.inl ⟨h1, hk⟩

theorem timeSince_lt_window (now t : Int) :
    timeSince now t < 10 * Second ↔ now - t < 10 * Second := by
  unfold timeSince timeSub minDuration maxDuration Second
  split_ifs <;> omega

/-! ## The save handler, case by case -/

theorem save_of_found (req : SaveRequest) (env : SaveEnv) (s : Server) (page : Page)
    (hreq : req.Subdomain ≠ "")
    (hpage : GetPageFromURL env.faults s.db req.Subdomain = Except.ok page) :
    SavePageContentHandler (some req) env s =
      if conflictFlagged req env s then (Response.conflict page.Content, s, [])
      else if env.faults.saveErr then (Response.storageError, s, [])
      else
        (Response.saved,
          { db := dbSave s.db { page with Content := GenerateHTML2Save req.Subdomain req.Content,
                                          UpdatedAt := env.pageNow },
            LastUpdateConn := GoMap.set s.LastUpdateConn req.Subdomain
              { UpdatedAt := env.recordNow, UserKey := req.UserKey,
                Conn := ((GoMap.get? s.LastUpdateConn req.Subdomain).getD
                  { UpdatedAt := 0, UserKey := "", Conn := none }).Conn },
            clients := (NotifyClients req.Subdomain req.Content env.writeOk s.clients).1 },
          (NotifyClients req.Subdomain req.Content env.writeOk s.clients).2) := by
  unfold SavePageContentHandler ShouldBindJSON conflictFlagged
  simp only [hreq, if_false, hpage]
  cases hget : GoMap.get? s.LastUpdateConn req.Subdomain with
  | none => simp
  | some info =>
    cases hf : req.ForceOverwrite <;>
    by_cases hk : info.UserKey = req.UserKey <;>
    by_cases ht : timeSince env.sinceNow info.UpdatedAt < 10 * Second <;>
    simp [hk, ht]

theorem save_not_bound (env : SaveEnv) (s : Server) (body : Option SaveRequest)
    (h : ShouldBindJSON body = none) :
    SavePageContentHandler body env s = (Response.badRequest, s, []) := by
  unfold SavePageContentHandler
  rw [h]

theorem save_not_found (req : SaveRequest) (env : SaveEnv) (s : Server) (e : String)
    (hreq : req.Subdomain ≠ "")
    (hpage : GetPageFromURL env.faults s.db req.Subdomain = Except.error e) :
    SavePageContentHandler (some req) env s = (Response.notFound, s, []) := by
  unfold SavePageContentHandler ShouldBindJSON
  simp only [hreq, if_false, hpage]

theorem conflictFlagged_iff (req : SaveRequest) (env : SaveEnv) (s : Server) :
    conflictFlagged req env s = true ↔
      ∃ info, GoMap.get? s.LastUpdateConn req.Subdomain = some info ∧
        req.ForceOverwrite = false ∧ info.UserKey ≠ req.UserKey ∧
        env.sinceNow - info.UpdatedAt < 10 * Second := by
  unfold conflictFlagged
  cases hget : GoMap.get? s.LastUpdateConn req.Subdomain with
  | none => simp
  | some info =>
    simp only [Bool.and_eq_true, Bool.not_eq_true', decide_eq_true_eq, timeSince_lt_window,
      Option.some.injEq, exists_eq_left', and_assoc]

theorem ShouldBindJSON_some (body : Option SaveRequest) (req : SaveRequest)
    (hb : ShouldBindJSON body = some req) : body = some req ∧ req.Subdomain ≠ "" := by
  unfold ShouldBindJSON at hb
  cases body with
  | none => cases hb
  | some r =>
    by_cases hr : r.Subdomain = ""
    · simp [hr] at hb
    · simp only [hr, if_false, Option.some.injEq] at hb
      subst hb
      exact ⟨rfl, hr⟩

theorem except_cases {ε α : Type} (x : Except ε α) :
    (∃ e, x = Except.error e) ∨ (∃ a, x = Except.ok a) := by
  cases x with
  | error e => exact Or.inl ⟨e, rfl⟩
  | ok a => exact Or.inr ⟨a, rfl⟩

theorem save_saved_inv (req : SaveRequest) (env : SaveEnv) (s : Server)
    (h : (SavePageContentHandler (some req) env s).1 = Response.saved) :
    ∃ page, req.Subdomain ≠ "" ∧
      GetPageFromURL env.faults s.db req.Subdomain = Except.ok page ∧
      conflictFlagged req env s = false ∧ env.faults.saveErr = false ∧
      SavePageContentHandler (some req) env s =
        (Response.saved,
          { db := dbSave s.db { page with Content := GenerateHTML2Save req.Subdomain req.Content,
                                          UpdatedAt := env.pageNow },
            LastUpdateConn := GoMap.set s.LastUpdateConn req.Subdomain
              { UpdatedAt := env.recordNow, UserKey := req.UserKey,
                Conn := ((GoMap.get? s.LastUpdateConn req.Subdomain).getD
                  { UpdatedAt := 0, UserKey := "", Conn := none }).Conn },
            clients := (NotifyClients req.Subdomain req.Content env.writeOk s.clients).1 },
          (NotifyClients req.Subdomain req.Content env.writeOk s.clients).2) := by
  by_cases hreq : req.Subdomain = ""
  · have hb : ShouldBindJSON (some req) = none := by simp [ShouldBindJSON, hreq]
    rw [save_not_bound env s (some req) hb] at h
    cases h
  · rcases except_cases (GetPageFromURL env.faults s.db req.Subdomain) with ⟨e, hp⟩ | ⟨page, hp⟩
    · rw [save_not_found req env s e hreq hp] at h
      cases h
    · have hres := save_of_found req env s page hreq hp
      by_cases hc : conflictFlagged req env s = true
      · rw [hres, if_pos hc] at h
        cases h
      · by_cases hs : env.faults.saveErr = true
        · rw [hres, if_neg hc, if_pos hs] at h
          cases h
        · rw [if_neg hc, if_neg hs] at hres
          exact ⟨page, hreq, hp, by simpa using hc, by simpa using hs, hres⟩

/-! ## Lookups survive a save -/

theorem minByID_mem (l : List Page) (q : Page) (h : minByID l = some q) : q ∈ l := by
  induction l generalizing q with
  | nil => cases h
  | cons p ps ih =>
    unfold minByID at h
    cases hm : minByID ps with
    | none =>
      rw [hm] at h
      cases h
      exact List.mem_cons_self _ _
    | some m =>
      rw [hm] at h
      by_cases hle : p.ID ≤ m.ID
      · simp only [hle, if_true, Option.some.injEq] at h
        rw [← h]
        exact List.mem_cons_self _ _
      · simp only [hle, if_false, Option.some.injEq] at h
        rw [← h]
        exact List.mem_cons_of_mem _ (ih m hm)

theorem minByID_map (g : Page → Page) (l : List Page) (hid : ∀ r ∈ l, (g r).ID = r.ID) :
    minByID (l.map g) = (minByID l).map g := by
  induction l with
  | nil => rfl
  | cons p ps ih =>
    have ih' := ih (fun r hr => hid r (List.mem_cons_of_mem _ hr))
    rw [List.map_cons]
    unfold minByID
    rw [ih']
    cases hm : minByID ps with
    | none => rfl
    | some m =>
      have hmid := hid m (List.mem_cons_of_mem _ (minByID_mem ps m hm))
      have hpid := hid p (List.mem_cons_self _ _)
      simp only [Option.map_some', hmid, hpid]
      by_cases hle : p.ID ≤ m.ID
      · simp only [hle, if_true, Option.map_some']
      · simp only [hle, if_false, Option.map_some']

theorem filter_map_of_stable (g : Page → Page) (cond : Page → Bool) (l : List Page)
    (h : ∀ r ∈ l, cond (g r) = cond r) : (l.map g).filter cond = (l.filter cond).map g := by
  induction l with
  | nil => rfl
  | cons p ps ih =>
    have ih' := ih (fun r hr => h r (List.mem_cons_of_mem _ hr))
    have hp := h p (List.mem_cons_self _ _)
    rw [List.map_cons]
    cases hc : cond p with
    | true =>
      rw [List.filter_cons_of_pos (by rw [hp, hc]), List.filter_cons_of_pos hc, ih',
        List.map_cons]
    | false =>
      rw [List.filter_cons_of_neg (by rw [hp, hc]; simp), List.filter_cons_of_neg (by rw [hc]; simp),
        ih']

theorem dbFirst_mem (cond : Page → Bool) (db : List Page) (q : Page)
    (h : dbFirst cond db = some q) : q ∈ db :=
  (List.mem_filter.mp (minByID_mem _ q h)).1

theorem dbFirst_map (g : Page → Page) (cond : Page → Bool) (db : List Page)
    (hid : ∀ r ∈ db, (g r).ID = r.ID) (hc : ∀ r ∈ db, cond (g r) = cond r) :
    dbFirst cond (db.map g) = (dbFirst cond db).map g := by
  unfold dbFirst
  rw [filter_map_of_stable g cond db hc]
  exact minByID_map g _ (fun r hr => hid r (List.mem_filter.mp hr).1)

theorem loop_map (f : DBFaults) (db : List Page) (g : Page → Page) (hg : KeepsKeys g db) :
    ∀ (segs : List String) (sub : String) (par : Option Nat) (lvl : Int) (init init' : Page),
      GetPageFromURL.loop f (db.map g) (sub :: segs) par lvl init' =
        (GetPageFromURL.loop f db (sub :: segs) par lvl init).map g := by
  intro segs
  induction segs with
  | nil =>
    intro sub par lvl init init'
    unfold GetPageFromURL.loop
    by_cases hl : f.lookupErr = true
    · rw [if_pos hl, if_pos hl]; rfl
    · rw [if_neg hl, if_neg hl]
      rw [dbFirst_map g _ db (fun r hr => (hg r hr).1) (fun r hr => by
        obtain ⟨_, h2, h3, h4⟩ := hg r hr
        rw [h2, h3, h4])]
      cases dbFirst (fun p => decide (p.FileName = sub ∧ p.ParentID = par ∧ p.Level = lvl)) db with
      | none => rfl
      | some q =>
        simp only [Option.map_some']
        unfold GetPageFromURL.loop
        rfl
  | cons s segs ih =>
    intro sub par lvl init init'
    rw [GetPageFromURL.loop, GetPageFromURL.loop]
    by_cases hl : f.lookupErr = true
    · rw [if_pos hl, if_pos hl]; rfl
    · rw [if_neg hl, if_neg hl]
      rw [dbFirst_map g _ db (fun r hr => (hg r hr).1) (fun r hr => by
        obtain ⟨_, h2, h3, h4⟩ := hg r hr
        rw [h2, h3, h4])]
      cases hq : dbFirst (fun p => decide (p.FileName = sub ∧ p.ParentID = par ∧ p.Level = lvl)) db with
      | none => rfl
      | some q =>
        simp only [Option.map_some']
        rw [(hg q (dbFirst_mem _ db q hq)).1]
        exact ih s (some q.ID) (lvl + 1) q (g q)

theorem loop_mem (f : DBFaults) (db : List Page) :
    ∀ (segs : List String) (sub : String) (par : Option Nat) (lvl : Int) (init page : Page),
      GetPageFromURL.loop f db (sub :: segs) par lvl init = Except.ok page → page ∈ db := by
  intro segs
  induction segs with
  | nil =>
    intro sub par lvl init page h
    unfold GetPageFromURL.loop at h
    by_cases hl : f.lookupErr = true
    · rw [if_pos hl] at h; cases h
    · rw [if_neg hl] at h
      cases hq : dbFirst (fun p => decide (p.FileName = sub ∧ p.ParentID = par ∧ p.Level = lvl)) db with
      | none => rw [hq] at h; cases h
      | some q =>
        rw [hq] at h
        unfold GetPageFromURL.loop at h
        cases h
        exact dbFirst_mem _ db _ hq
  | cons s segs ih =>
    intro sub par lvl init page h
    rw [GetPageFromURL.loop] at h
    by_cases hl : f.lookupErr = true
    · rw [if_pos hl] at h; cases h
    · rw [if_neg hl] at h
      cases hq : dbFirst (fun p => decide (p.FileName = sub ∧ p.ParentID = par ∧ p.Level = lvl)) db with
      | none => rw [hq] at h; cases h
      | some q =>
        rw [hq] at h
        exact ih s (some q.ID) (lvl + 1) q page h

theorem splitChars_ne_nil (sep : Char) (l : List Char) : splitChars sep l ≠ [] := by
  cases l with
  | nil => simp [splitChars]
  | cons c cs =>
    unfold splitChars
    by_cases h : c = sep
    · simp [h]
    · rw [if_neg h]
      cases splitChars sep cs <;> simp

theorem stringsSplit_cons (s : String) (sep : Char) :
    ∃ sub segs, stringsSplit s sep = sub :: segs := by
  unfold stringsSplit
  cases h : splitChars sep s.data with
  | nil => exact absurd h (splitChars_ne_nil sep s.data)
  | cons a l => exact ⟨String.mk a, l.map String.mk, rfl⟩

theorem eq_of_ID_eq (db : List Page) (hids : (db.map (fun p => p.ID)).Nodup) (r q : Page)
    (hr : r ∈ db) (hq : q ∈ db) (h : r.ID = q.ID) : r = q :=
  List.inj_on_of_nodup_map hids hr hq h

theorem GetPageFromURL_mem (f : DBFaults) (db : List Page) (url : String) (page : Page)
    (hp : GetPageFromURL f db url = Except.ok page) : page ∈ db := by
  obtain ⟨sub, segs, hsplit⟩ := stringsSplit_cons url '/'
  unfold GetPageFromURL at hp
  rw [hsplit] at hp
  exact loop_mem f db segs sub none 0 Page.zero page hp

theorem GetPageFromURL_dbSave (f : DBFaults) (db : List Page) (url : String) (page : Page)
    (content : String) (updatedAt : Int) (hids : (db.map (fun p => p.ID)).Nodup)
    (hp : GetPageFromURL f db url = Except.ok page) :
    GetPageFromURL f (dbSave db { page with Content := content, UpdatedAt := updatedAt }) url =
      Except.ok { page with Content := content, UpdatedAt := updatedAt } := by
  have hmem := GetPageFromURL_mem f db url page hp
  obtain ⟨sub, segs, hsplit⟩ := stringsSplit_cons url '/'
  unfold GetPageFromURL at hp ⊢
  rw [hsplit] at hp ⊢
  have hg : KeepsKeys
      (fun r => if r.ID = page.ID then { page with Content := content, UpdatedAt := updatedAt }
        else r) db := by
    intro r hr
    by_cases h : r.ID = page.ID
    · have := eq_of_ID_eq db hids r page hr hmem h
      subst this
      simp
    · simp [h]
  have := loop_map f db _ hg segs sub none 0 Page.zero Page.zero
  unfold dbSave
  rw [this, hp]
  simp [Except.map]

theorem loop_faults_congr (f f' : DBFaults) (db : List Page) (h : f.lookupErr = f'.lookupErr) :
    ∀ (segs : List String) (par : Option Nat) (lvl : Int) (init : Page),
      GetPageFromURL.loop f db segs par lvl init = GetPageFromURL.loop f' db segs par lvl init := by
  intro segs
  induction segs with
  | nil => intro par lvl init; rfl
  | cons s segs ih =>
    intro par lvl init
    rw [GetPageFromURL.loop, GetPageFromURL.loop, h]
    by_cases hl : f'.lookupErr = true
    · rw [if_pos hl, if_pos hl]
    · rw [if_neg hl, if_neg hl]
      cases dbFirst (fun p => decide (p.FileName = s ∧ p.ParentID = par ∧ p.Level = lvl)) db with
      | none => rfl
      | some q => exact ih _ _ _

theorem GetPageFromURL_faults_congr (f f' : DBFaults) (db : List Page) (url : String)
    (h : f.lookupErr = f'.lookupErr) : GetPageFromURL f db url = GetPageFromURL f' db url :=
  loop_faults_congr f f' db h _ _ _ _

theorem GetPageFromURL_ok_no_fault (f : DBFaults) (db : List Page) (url : String) (page : Page)
    (hp : GetPageFromURL f db url = Except.ok page) : f.lookupErr = false := by
  obtain ⟨sub, segs, hsplit⟩ := stringsSplit_cons url '/'
  unfold GetPageFromURL at hp
  rw [hsplit, GetPageFromURL.loop] at hp
  by_cases hl : f.lookupErr = true
  · rw [if_pos hl] at hp; cases hp
  · simpa using hl

/-! ## The broadcast loop -/

theorem rangeClients_log_mono (fullPath content : String) (writeOk : Conn → Bool) :
    ∀ (l : List (Conn × String)) (clients : GoMap Conn String) (log : List WsEvent)
      (e : WsEvent), e ∈ log → e ∈ (rangeClients fullPath content writeOk l (clients, log)).2 := by
  intro l
  induction l with
  | nil => intro clients log e he; exact he
  | cons x rest ih =>
    intro clients log e he
    obtain ⟨conn, path⟩ := x
    unfold rangeClients
    by_cases hp : path = fullPath
    · rw [if_pos hp]
      cases hw : writeOk conn with
      | true => exact ih _ _ e (List.mem_append_left _ he)
      | false => exact ih _ _ e (List.mem_append_left _ he)
    · rw [if_neg hp]
      exact ih _ _ e he

theorem rangeClients_wrote (fullPath content : String) (writeOk : Conn → Bool) :
    ∀ (l : List (Conn × String)) (clients : GoMap Conn String) (log : List WsEvent)
      (H : Conn), (H, fullPath) ∈ l → writeOk H = true →
      WsEvent.wrote H content ∈ (rangeClients fullPath content writeOk l (clients, log)).2 := by
  intro l
  induction l with
  | nil => intro clients log H hH; cases hH
  | cons x rest ih =>
    intro clients log H hH hok
    obtain ⟨conn, path⟩ := x
    unfold rangeClients
    rcases List.mem_cons.mp hH with heq | hrest
    · cases heq
      rw [if_pos rfl, hok]
      exact rangeClients_log_mono fullPath content writeOk rest _ _ _
        (List.mem_append_right _ (List.mem_singleton_self _))
    · by_cases hp : path = fullPath
      · rw [if_pos hp]
        cases hw : writeOk conn with
        | true => exact ih _ _ H hrest hok
        | false => exact ih _ _ H hrest hok
      · rw [if_neg hp]
        exact ih _ _ H hrest hok

theorem rangeClients_keys_subset (fullPath content : String) (writeOk : Conn → Bool) :
    ∀ (l : List (Conn × String)) (clients : GoMap Conn String) (log : List WsEvent)
      (p : Conn), p ∈ GoMap.keys (rangeClients fullPath content writeOk l (clients, log)).1 →
      p ∈ GoMap.keys clients := by
  intro l
  induction l with
  | nil => intro clients log p hp; exact hp
  | cons x rest ih =>
    intro clients log p hp
    obtain ⟨conn, path⟩ := x
    unfold rangeClients at hp
    by_cases hpath : path = fullPath
    · rw [if_pos hpath] at hp
      cases hw : writeOk conn with
      | true =>
        rw [hw] at hp
        exact ih _ _ p hp
      | false =>
        rw [hw] at hp
        exact ((GoMap.mem_keys_delete clients conn p).mp (ih _ _ p hp)).1
    · rw [if_neg hpath] at hp
      exact ih _ _ p hp

theorem rangeClients_failed_removed (fullPath content : String) (writeOk : Conn → Bool) :
    ∀ (l : List (Conn × String)) (clients : GoMap Conn String) (log : List WsEvent)
      (H : Conn), (H, fullPath) ∈ l → writeOk H = false →
      H ∉ GoMap.keys (rangeClients fullPath content writeOk l (clients, log)).1 ∧
      WsEvent.closed H ∈ (rangeClients fullPath content writeOk l (clients, log)).2 := by
  intro l
  induction l with
  | nil => intro clients log H hH; cases hH
  | cons x rest ih =>
    intro clients log H hH hfail
    obtain ⟨conn, path⟩ := x
    unfold rangeClients
    rcases List.mem_cons.mp hH with heq | hrest
    · cases heq
      rw [if_pos rfl, hfail]
      refine ⟨?_, ?_⟩
      · intro hmem
        exact GoMap.not_mem_keys_delete clients H
          (rangeClients_keys_subset fullPath content writeOk rest _ _ H hmem)
      · exact rangeClients_log_mono fullPath content writeOk rest _ _ _
          (List.mem_append_right _ (List.mem_singleton_self _))
    · by_cases hp : path = fullPath
      · rw [if_pos hp]
        cases hw : writeOk conn with
        | true => exact ih _ _ H hrest hfail
        | false => exact ih _ _ H hrest hfail
      · rw [if_neg hp]
        exact ih _ _ H hrest hfail

theorem mem_connectionsFor (path : String) (clients : GoMap Conn String) (H : Conn)
    (h : H ∈ connectionsFor path clients) : H ∈ GoMap.keys clients := by
  simp only [connectionsFor, List.mem_map, List.mem_filter] at h
  obtain ⟨e, ⟨he, _⟩, rfl⟩ := h
  exact List.mem_map_of_mem (fun e => e.1) he

theorem rangeClients_closed_visited (fullPath content : String) (writeOk : Conn → Bool) :
    ∀ (l : List (Conn × String)) (clients : GoMap Conn String) (log : List WsEvent)
      (H : Conn),
      WsEvent.closed H ∈ (rangeClients fullPath content writeOk l (clients, log)).2 →
      WsEvent.closed H ∈ log ∨ H ∈ GoMap.keys l := by
  intro l
  induction l with
  | nil => intro clients log H h; exact Or.inl h
  | cons x rest ih =>
    intro clients log H h
    obtain ⟨conn, path⟩ := x
    have hkeys : ∀ k, k ∈ GoMap.keys rest → k ∈ GoMap.keys ((conn, path) :: rest) :=
      fun k hk => List.mem_cons_of_mem _ hk
    unfold rangeClients at h
    by_cases hp : path = fullPath
    · rw [if_pos hp] at h
      cases hw : writeOk conn with
      | true =>
        rw [hw] at h
        rcases ih _ _ H h with hl | hr
        · rcases List.mem_append.mp hl with h1 | h2
          · exact Or.inl h1
          · cases List.mem_singleton.mp h2
        · exact Or.inr (hkeys H hr)
      | false =>
        rw [hw] at h
        rcases ih _ _ H h with hl | hr
        · rcases List.mem_append.mp hl with h1 | h2
          · exact Or.inl h1
          · cases List.mem_singleton.mp h2
            exact Or.inr (List.mem_cons_self _ _)
        · exact Or.inr (hkeys H hr)
    · rw [if_neg hp] at h
      rcases ih _ _ H h with hl | hr
      · exact Or.inl hl
      · exact Or.inr (hkeys H hr)

/-- A broadcast closes, and so deletes, only handles that are keys of the registry it ranges
over: the deletes of lines 243 and 263 never name a handle that was not registered. -/
theorem broadcast_closes_only_registered (fullPath content : String) (writeOk : Conn → Bool)
    (clients : GoMap Conn String) (H : Conn)
    (h : WsEvent.closed H ∈ (NotifyClients fullPath content writeOk clients).2) :
    H ∈ GoMap.keys clients := by
  rcases rangeClients_closed_visited fullPath content writeOk clients clients [] H h with hl | hr
  · cases hl
  · exact hr

/-! ## Sequences of registry operations -/

theorem registeredHandles_append (xs ys : List RegistryOp) :
    registeredHandles (xs ++ ys) = registeredHandles xs ++ registeredHandles ys := by
  induction xs with
  | nil => rfl
  | cons x xs ih =>
    cases x with
    | register conn path => simp [registeredHandles, ih]
    | unregister conn => simp [registeredHandles, ih]

theorem runOps_append (xs ys : List RegistryOp) (clients : GoMap Conn String) :
    runOps (xs ++ ys) clients = runOps ys (runOps xs clients) := by
  simp [runOps, List.foldl_append]

theorem runOps_keeps_absent (h : Conn) :
    ∀ (ops : List RegistryOp) (clients : GoMap Conn String),
      h ∉ GoMap.keys clients → h ∉ registeredHandles ops →
      h ∉ GoMap.keys (runOps ops clients) := by
  intro ops
  induction ops with
  | nil => intro clients hc _; exact hc
  | cons op ops ih =>
    intro clients hc hr
    cases op with
    | register conn path =>
      have hne : h ≠ conn := fun e => hr (by rw [e]; exact List.mem_cons_self _ _)
      have hr' : h ∉ registeredHandles ops := fun e => hr (List.mem_cons_of_mem _ e)
      apply ih _ _ hr'
      intro hmem
      rcases (GoMap.mem_keys_set clients conn h path).mp hmem with e | e
      · exact hne e
      · exact hc e
    | unregister conn =>
      apply ih _ _ hr
      intro hmem
      exact hc ((GoMap.mem_keys_delete clients conn h).mp hmem).1

theorem runOps_absent_after_unregister (pre post : List RegistryOp) (h : Conn)
    (start : GoMap Conn String)
    (hnodup : (registeredHandles (pre ++ RegistryOp.unregister h :: post)).Nodup)
    (hbefore : h ∈ registeredHandles pre) :
    h ∉ GoMap.keys (runOps (pre ++ RegistryOp.unregister h :: post) start) := by
  have hpost : h ∉ registeredHandles post := by
    intro hp
    rw [registeredHandles_append] at hnodup
    exact (List.nodup_append.mp hnodup).2.2 hbefore hp
  rw [runOps_append]
  have : runOps (RegistryOp.unregister h :: post) (runOps pre start)
      = runOps post (GoMap.delete (runOps pre start) h) := rfl
  rw [this]
  exact runOps_keeps_absent h post _ (GoMap.not_mem_keys_delete _ h) hpost

theorem programOrder_registered_before (h : Conn) (post : List RegistryOp) :
    ∀ (pre : List RegistryOp) (seen : List Conn),
      programOrder seen (pre ++ RegistryOp.unregister h :: post) = true →
      h ∈ seen ∨ h ∈ registeredHandles pre := by
  intro pre
  induction pre with
  | nil =>
    intro seen hord
    rw [List.nil_append, programOrder, Bool.and_eq_true, decide_eq_true_eq] at hord
    exact Or.inl hord.1
  | cons op pre ih =>
    intro seen hord
    cases op with
    | register conn path =>
      rw [List.cons_append, programOrder] at hord
      rcases ih (conn :: seen) hord with hs | hr
      · rcases List.mem_cons.mp hs with e | hs'
        · exact Or.inr (by rw [e]; exact List.mem_cons_self _ _)
        · exact Or.inl hs'
      · exact Or.inr (List.mem_cons_of_mem _ hr)
    | unregister conn =>
      rw [List.cons_append, programOrder, Bool.and_eq_true] at hord
      rcases ih seen hord.2 with hs | hr
      · exact Or.inl hs
      · exact Or.inr hr

theorem dropLiteral_append (l s : List Char) : dropLiteral l (l ++ s) = some s := by
  induction l with
  | nil => cases s <;> rfl
  | cons p ps ih =>
    rw [List.cons_append, dropLiteral, if_pos rfl]
    exact ih

theorem dropLiteral_head_ne (p c : Char) (ps cs : List Char) (h : c ≠ p) :
    dropLiteral (p :: ps) (c :: cs) = none := by
  rw [dropLiteral, if_neg (fun e => h e.symm)]

theorem dropLiteral_of_clash (s : List Char) :
    ∀ (pat t : List Char), clash pat t = true → dropLiteral pat (t ++ s) = none := by
  intro pat
  induction pat with
  | nil => intro t h; cases t <;> simp [clash] at h
  | cons p ps ih =>
    intro t h
    cases t with
    | nil => simp [clash] at h
    | cons c cs =>
      rw [List.cons_append, dropLiteral]
      by_cases hpc : p = c
      · rw [if_pos hpc]
        rw [clash, if_pos hpc] at h
        exact ih cs h
      · rw [if_neg hpc]

theorem dropLiteral_of_not_hasPrefix (x : Char) (s : List Char) :
    ∀ (pat t : List Char), x ∉ pat → hasPrefix t pat = false →
      dropLiteral pat (t ++ x :: s) = none := by
  intro pat
  induction pat with
  | nil => intro t _ h; cases t <;> simp [hasPrefix] at h
  | cons p ps ih =>
    intro t hx h
    have hxp : x ≠ p := fun e => hx (by rw [e]; exact List.mem_cons_self _ _)
    have hxps : x ∉ ps := fun e => hx (List.mem_cons_of_mem _ e)
    cases t with
    | nil => exact dropLiteral_head_ne p x ps s hxp
    | cons c cs =>
      rw [List.cons_append, dropLiteral]
      by_cases hpc : p = c
      · rw [if_pos hpc]
        rw [hasPrefix, if_pos hpc.symm] at h
        exact ih cs hxps h
      · rw [if_neg hpc]

theorem lazyStar_hit {α : Type} (k : List Char → Option α) (s : List Char) (r : α)
    (h : k s = some r) : lazyStar k s = some r := by
  cases s with
  | nil => rw [lazyStar, h]
  | cons c cs => rw [lazyStar, h]

theorem lazyStar_skip {α : Type} (k : List Char → Option α) (s : List Char) :
    ∀ (skipped : List Char),
      (∀ a b, skipped = a ++ b → b ≠ [] → k (b ++ s) = none) →
      lazyStar k (skipped ++ s) = lazyStar k s := by
  intro skipped
  induction skipped with
  | nil => intro _; rfl
  | cons c cs ih =>
    intro h
    have h0 : k (c :: cs ++ s) = none := h [] (c :: cs) rfl (List.cons_ne_nil _ _)
    rw [List.cons_append] at h0 ⊢
    rw [lazyStar, h0]
    apply ih
    intro a b hab hb
    exact h (c :: a) b (by rw [hab, List.cons_append]) hb

theorem matchNodes_lit_fail (l : List Char) (rest : List ReNode) (cap : Capture)
    (s : List Char) (h : dropLiteral l s = none) :
    matchNodes (ReNode.lit l :: rest) cap s = none := by
  rw [matchNodes, h]

theorem matchNodes_lit_step (l : List Char) (rest : List ReNode) (cap : Capture)
    (s : List Char) : matchNodes (ReNode.lit l :: rest) cap (l ++ s) = matchNodes rest cap s := by
  rw [matchNodes, dropLiteral_append]

theorem clash_of_allSuffixesClash (pat : List Char) :
    ∀ (t a b : List Char), allSuffixesClash pat t = true → t = a ++ b → b ≠ [] →
      clash pat b = true := by
  intro t
  induction t with
  | nil =>
    intro a b _ hab hb
    have := List.append_eq_nil.mp hab.symm
    exact absurd this.2 hb
  | cons c cs ih =>
    intro a b h hab hb
    rw [allSuffixesClash, Bool.and_eq_true] at h
    cases a with
    | nil =>
      rw [List.nil_append] at hab
      rw [← hab]
      exact h.1
    | cons x xs =>
      rw [List.cons_append] at hab
      exact ih xs b h.2 (List.cons.inj hab).2 hb

theorem not_hasPrefix_of_not_contains (pat : List Char) :
    ∀ (t a b : List Char), containsChars t pat = false → t = a ++ b → b ≠ [] →
      hasPrefix b pat = false := by
  intro t
  induction t with
  | nil =>
    intro a b _ hab hb
    have := List.append_eq_nil.mp hab.symm
    exact absurd this.2 hb
  | cons c cs ih =>
    intro a b h hab hb
    rw [containsChars, Bool.or_eq_false_iff] at h
    cases a with
    | nil =>
      rw [List.nil_append] at hab
      rw [← hab]
      exact h.1
    | cons x xs =>
      rw [List.cons_append] at hab
      exact ih xs b h.2 (List.cons.inj hab).2 hb

theorem head_mem_of_split (t a b : List Char) (hab : t = a ++ b) (hb : b ≠ []) :
    ∃ c cs, b = c :: cs ∧ c ∈ t := by
  cases b with
  | nil => exact absurd rfl hb
  | cons c cs =>
    refine ⟨c, cs, rfl, ?_⟩
    rw [hab]
    exact List.mem_append_right _ (List.mem_cons_self _ _)

theorem escapeChar_no_lt (c : Char) : '<' ∉ escapeChar c := by
  unfold escapeChar
  split_ifs with h1 h2 h3 h4 h5
  · decide
  · decide
  · decide
  · decide
  · decide
  · intro hmem
    exact h3 (List.mem_singleton.mp hmem).symm

theorem htmlEscapeString_no_lt (content : String) :
    ∀ c ∈ (htmlEscapeString content).data, c ≠ '<' := by
  intro c hc e
  rw [e] at hc
  simp only [htmlEscapeString, List.mem_flatMap] at hc
  obtain ⟨x, _, hx⟩ := hc
  exact escapeChar_no_lt x hx

set_option maxRecDepth 100000 in
theorem html2SaveMid_split :
    html2SaveMid = midBeforeTextarea ++ "<textarea" ++ midAttributes ++ ">" := by decide

set_option maxRecDepth 100000 in
theorem html2SaveTail_split : html2SaveTail = "</textarea>" ++ tailAfterTextarea := by decide

set_option maxRecDepth 100000 in
theorem head_suffixes_clash : allSuffixesClash "<textarea".data html2SaveHead.data = true := by
  decide

set_option maxRecDepth 100000 in
theorem mid_suffixes_clash :
    allSuffixesClash "<textarea".data midBeforeTextarea.data = true := by
  decide

set_option maxRecDepth 100000 in
theorem mid_starts_with_space :
    midBeforeTextarea.data = ' ' :: midBeforeTextarea.data.tail := by decide

theorem attributes_no_gt : ∀ c ∈ midAttributes.data, c ≠ '>' := by decide

theorem space_not_in_open_tag : ' ' ∉ "<textarea".data := by decide

theorem GenerateHTML2Save_data (subdomain content : String) :
    (GenerateHTML2Save subdomain content).data =
      html2SaveHead.data ++ (subdomain.data ++ (midBeforeTextarea.data ++
        ("<textarea".data ++ (midAttributes.data ++ ('>' :: ((htmlEscapeString content).data ++
          ("</textarea>".data ++ tailAfterTextarea.data))))))) := by
  unfold GenerateHTML2Save
  rw [html2SaveMid_split, html2SaveTail_split]
  simp only [String.data_append, List.append_assoc]
  rfl

/-- The opening tag is found at its place in the template and nowhere before. -/
theorem search_skips_to_open_tag (rest : List ReNode) (cap : Capture)
    (subdomain : List Char) (after : List Char)
    (hsub : containsChars subdomain "<textarea".data = false) :
    lazyStar (matchNodes (ReNode.lit "<textarea".data :: rest) cap)
        (html2SaveHead.data ++ (subdomain ++ (midBeforeTextarea.data ++
          ("<textarea".data ++ after)))) =
      lazyStar (matchNodes (ReNode.lit "<textarea".data :: rest) cap)
        ("<textarea".data ++ after) := by
  rw [lazyStar_skip _ _ html2SaveHead.data (fun a b hab hb =>
    matchNodes_lit_fail _ _ _ _ (dropLiteral_of_clash _ _ b
      (clash_of_allSuffixesClash _ _ a b head_suffixes_clash hab hb)))]
  rw [lazyStar_skip _ _ subdomain (fun a b hab hb => by
    rw [mid_starts_with_space, List.cons_append]
    exact matchNodes_lit_fail _ _ _ _ (dropLiteral_of_not_hasPrefix ' ' _ _ b
      space_not_in_open_tag (not_hasPrefix_of_not_contains _ _ a b hsub hab hb)))]
  rw [lazyStar_skip _ _ midBeforeTextarea.data (fun a b hab hb =>
    matchNodes_lit_fail _ _ _ _ (dropLiteral_of_clash _ _ b
      (clash_of_allSuffixesClash _ _ a b mid_suffixes_clash hab hb)))]

/-- A lazy `.*?` in front of a literal skips a text that does not contain the literal's
first character. -/
theorem lazyStar_skip_no_head (k : List Char → Option Capture) (p : Char) (ps : List Char)
    (skipped s : List Char) (hno : ∀ c ∈ skipped, c ≠ p)
    (hk : ∀ t, dropLiteral (p :: ps) t = none → k t = none) :
    lazyStar k (skipped ++ s) = lazyStar k s := by
  apply lazyStar_skip
  intro a b hab hb
  obtain ⟨c, cs, hc, hmem⟩ := head_mem_of_split skipped a b hab hb
  apply hk
  rw [hc, List.cons_append]
  exact dropLiteral_head_ne p c ps _ (hno c hmem)

theorem Capture.text_of_split (body after : List Char) :
    Capture.text { openAt := body ++ after, closeAt := after } = body := by
  unfold Capture.text
  simp

/-- On the save template the pattern captures exactly the escaped content. -/
theorem findSubmatch1_template (subdomain content : String)
    (hsub : containsChars subdomain.data "<textarea".data = false) :
    findSubmatch1 textareaRe (GenerateHTML2Save subdomain content).data =
      some (htmlEscapeString content).data := by
  have hclose : ∀ (cap : Capture) (t : List Char), dropLiteral "</textarea>".data t = none →
      matchNodes [ReNode.capClose, ReNode.lit "</textarea>".data] cap t = none := by
    intro cap t h
    rw [matchNodes, matchNodes_lit_fail _ _ _ _ h]
  have hgt : ∀ (cap : Capture) (t : List Char), dropLiteral ['>'] t = none →
      matchNodes [ReNode.lit ">".data, ReNode.capOpen, ReNode.lazyAny, ReNode.capClose,
        ReNode.lit "</textarea>".data] cap t = none := by
    intro cap t h
    exact matchNodes_lit_fail _ _ _ _ h
  unfold findSubmatch1 textareaRe
  rw [GenerateHTML2Save_data, search_skips_to_open_tag _ _ _ _ hsub]
  rw [lazyStar_hit _ _
    { openAt := (htmlEscapeString content).data ++ ("</textarea>".data ++ tailAfterTextarea.data),
      closeAt := "</textarea>".data ++ tailAfterTextarea.data }]
  · rw [Option.map_some', Capture.text_of_split]
  · rw [matchNodes_lit_step, matchNodes]
    rw [lazyStar_skip_no_head _ '>' [] midAttributes.data _ attributes_no_gt (hgt _)]
    apply lazyStar_hit
    have hstep := matchNodes_lit_step ">".data
      [ReNode.capOpen, ReNode.lazyAny, ReNode.capClose, ReNode.lit "</textarea>".data]
      { openAt := [], closeAt := [] }
      ((htmlEscapeString content).data ++ ("</textarea>".data ++ tailAfterTextarea.data))
    rw [show ">".data ++ ((htmlEscapeString content).data ++
        ("</textarea>".data ++ tailAfterTextarea.data)) =
      '>' :: ((htmlEscapeString content).data ++
        ("</textarea>".data ++ tailAfterTextarea.data)) from rfl] at hstep
    rw [hstep, matchNodes, matchNodes]
    rw [lazyStar_skip_no_head _ '<' "/textarea>".data (htmlEscapeString content).data _
      (htmlEscapeString_no_lt content) (hclose _)]
    apply lazyStar_hit
    rw [matchNodes, matchNodes_lit_step, matchNodes]

/-! ## Claims on the conflict policy -/

/-- C1. For a bound save request on an existing page, `SavePageContentHandler` answers
Conflict if and only if a tracker record exists for the request's path, `ForceOverwrite` is
false, the record's `UserKey` differs from the request's and the time elapsed since the
record's `UpdatedAt` is strictly less than 10 seconds.  In particular a forced save never
conflicts, and a save by the recorded user never conflicts, whatever the elapsed time. -/
theorem C1_conflict_iff_four_conditions (req : SaveRequest) (env : SaveEnv) (s : Server)
    (page : Page) (hreq : req.Subdomain ≠ "")
    (hpage : GetPageFromURL env.faults s.db req.Subdomain = Except.ok page) :
    ((∃ c, (SavePageContentHandler (some req) env s).1 = Response.conflict c) ↔
      ∃ info, GoMap.get? s.LastUpdateConn req.Subdomain = some info ∧
        req.ForceOverwrite = false ∧ info.UserKey ≠ req.UserKey ∧
        env.sinceNow - info.UpdatedAt < 10 * Second) ∧
    (req.ForceOverwrite = true →
      ∀ c, (SavePageContentHandler (some req) env s).1 ≠ Response.conflict c) ∧
    (∀ info, GoMap.get? s.LastUpdateConn req.Subdomain = some info →
      info.UserKey = req.UserKey →
      ∀ c, (SavePageContentHandler (some req) env s).1 ≠ Response.conflict c) := by
  have key : (∃ c, (SavePageContentHandler (some req) env s).1 = Response.conflict c) ↔
      conflictFlagged req env s = true := by
    rw [save_of_found req env s page hreq hpage]
    by_cases hc : conflictFlagged req env s = true
    · simp [hc]
    · by_cases hs : env.faults.saveErr = true <;> simp [hc, hs]
  have key' := key.trans (conflictFlagged_iff req env s)
  refine ⟨key', ?_, ?_⟩
  · intro hforce c hc
    obtain ⟨info, _, hf, _⟩ := key'.mp ⟨c, hc⟩
    rw [hforce] at hf
    exact Bool.noConfusion hf
  · intro info hget hsame c hc
    obtain ⟨info', hget', _, hne, _⟩ := key'.mp ⟨c, hc⟩
    rw [hget] at hget'
    cases hget'
    exact hne hsame

/-- Witness of C1: user `u2` saving 5 seconds after user `u1` is answered Conflict. -/
theorem C1_conflict_iff_four_conditions_witness :
    sampleReq.Subdomain ≠ "" ∧
    GetPageFromURL envAfter5s.faults sampleServer.db sampleReq.Subdomain
      = Except.ok samplePage ∧
    (∃ c, (SavePageContentHandler (some sampleReq) envAfter5s sampleServer).1
      = Response.conflict c) :=
  ⟨by decide, rfl,
   (C1_conflict_iff_four_conditions sampleReq envAfter5s sampleServer samplePage
      (by decide) rfl).1.mpr
     ⟨{ UpdatedAt := 0, UserKey := "u1", Conn := none }, rfl, rfl, by decide, by decide⟩⟩

/-- C5. A failed save leaves the shared state as it was.  When the handler answers
Conflict, the table, the conflict tracker and the registry are unchanged, nothing is
broadcast and the answer carries the stored content of the page; when the repository write
of a bound, non-conflicting request on an existing page fails, the answer is StorageError;
and whenever the answer is StorageError the state, the tracker included, is unchanged and
nothing is broadcast. -/
theorem C5_failed_save_leaves_state (body : Option SaveRequest) (env : SaveEnv) (s : Server) :
    (∀ c, (SavePageContentHandler body env s).1 = Response.conflict c →
      (SavePageContentHandler body env s).2.1 = s ∧
      (SavePageContentHandler body env s).2.2 = [] ∧
      ∃ req page, body = some req ∧
        GetPageFromURL env.faults s.db req.Subdomain = Except.ok page ∧ c = page.Content) ∧
    (∀ req page, ShouldBindJSON body = some req →
      GetPageFromURL env.faults s.db req.Subdomain = Except.ok page →
      env.faults.saveErr = true →
      (∀ c, (SavePageContentHandler body env s).1 ≠ Response.conflict c) →
      (SavePageContentHandler body env s).1 = Response.storageError) ∧
    ((SavePageContentHandler body env s).1 = Response.storageError →
      (SavePageContentHandler body env s).2.1.LastUpdateConn = s.LastUpdateConn ∧
      (SavePageContentHandler body env s).2.1 = s ∧
      (SavePageContentHandler body env s).2.2 = []) := by
  rcases Option.eq_none_or_eq_some (ShouldBindJSON body) with hb | ⟨req, hb⟩
  · rw [save_not_bound env s body hb]
    refine ⟨(fun c h => by cases h), ?_, (fun h => by cases h)⟩
    intro req page h
    rw [hb] at h
    cases h
  · obtain ⟨hbody, hreq⟩ := ShouldBindJSON_some body req hb
    subst hbody
    rcases except_cases (GetPageFromURL env.faults s.db req.Subdomain) with ⟨e, hp⟩ | ⟨page, hp⟩
    · rw [save_not_found req env s e hreq hp]
      refine ⟨(fun c h => by cases h), ?_, (fun h => by cases h)⟩
      intro req' page' h h'
      rw [hb] at h
      cases h
      rw [hp] at h'
      cases h'
    · rw [save_of_found req env s page hreq hp]
      by_cases hc : conflictFlagged req env s = true
      · rw [if_pos hc]
        refine ⟨?_, ?_, (fun h => by cases h)⟩
        · intro c h
          cases h
          exact ⟨rfl, rfl, req, page, rfl, hp, rfl⟩
        · intro _ _ _ _ _ hn
          exact absurd rfl (hn page.Content)
      · by_cases hs : env.faults.saveErr = true
        · rw [if_neg hc, if_pos hs]
          refine ⟨(fun c h => by cases h), ?_, fun _ => ⟨rfl, rfl, rfl⟩⟩
          intro _ _ _ _ _ _
          rfl
        · rw [if_neg hc, if_neg hs]
          refine ⟨(fun c h => by cases h), ?_, (fun h => by cases h)⟩
          intro _ _ _ _ hs' _
          exact absurd hs' hs

/-- Witness of C5: the conflicting save of `u2` leaves the sample state untouched and
carries the stored content, and a failing repository write is answered StorageError with
the state untouched. -/
theorem C5_failed_save_leaves_state_witness :
    ((SavePageContentHandler (some sampleReq) envAfter5s sampleServer).1
        = Response.conflict "stored" ∧
      (SavePageContentHandler (some sampleReq) envAfter5s sampleServer).2.1 = sampleServer ∧
      (SavePageContentHandler (some sampleReq) envAfter5s sampleServer).2.2 = []) ∧
    ((SavePageContentHandler (some sampleReq) envSaveFails sampleServer).1
        = Response.storageError ∧
      (SavePageContentHandler (some sampleReq) envSaveFails sampleServer).2.1.LastUpdateConn
        = sampleServer.LastUpdateConn) :=
  ⟨⟨rfl,
    ((C5_failed_save_leaves_state (some sampleReq) envAfter5s sampleServer).1 "stored" rfl).1,
    ((C5_failed_save_leaves_state (some sampleReq) envAfter5s sampleServer).1 "stored" rfl).2.1⟩,
   ⟨(C5_failed_save_leaves_state (some sampleReq) envSaveFails sampleServer).2.1
      sampleReq samplePage rfl rfl rfl (fun c h => by cases h),
    ((C5_failed_save_leaves_state (some sampleReq) envSaveFails sampleServer).2.2 rfl).1⟩⟩

/-- C6. After every save that persists successfully, forced or not, the conflict tracker
holds for the request's path a record whose `UserKey` is the request's and whose
`UpdatedAt` is the clock reading taken for the record, and the records of all other paths
are unchanged. -/
theorem C6_tracker_updated_on_success (req : SaveRequest) (env : SaveEnv) (s s' : Server)
    (log : List WsEvent)
    (h : SavePageContentHandler (some req) env s = (Response.saved, s', log)) :
    (∃ info, GoMap.get? s'.LastUpdateConn req.Subdomain = some info ∧
      info.UserKey = req.UserKey ∧ info.UpdatedAt = env.recordNow) ∧
    ∀ p, p ≠ req.Subdomain →
      GoMap.get? s'.LastUpdateConn p = GoMap.get? s.LastUpdateConn p := by
  have h1 : (SavePageContentHandler (some req) env s).1 = Response.saved := by rw [h]
  obtain ⟨page, _, _, _, _, hres⟩ := save_saved_inv req env s h1
  rw [hres] at h
  simp only [Prod.mk.injEq, true_and] at h
  obtain ⟨hs', _⟩ := h
  subst hs'
  refine ⟨⟨_, GoMap.get?_set_self _ _ _, rfl, rfl⟩, ?_⟩
  intro p hp
  exact GoMap.get?_set_other _ _ _ _ hp

/-- Witness of C6: a forced save by `u2`, 5 seconds after the save of `u1`, leaves the record
of `team/docs` with user `u2` and the clock reading of the save. -/
theorem C6_tracker_updated_on_success_witness :
    ∃ info,
      GoMap.get? (SavePageContentHandler (some forcedReq) envAfter5s sampleServer).2.1.LastUpdateConn
        "team/docs" = some info ∧
      info.UserKey = "u2" ∧ info.UpdatedAt = 5 * Second :=
  (C6_tracker_updated_on_success forcedReq envAfter5s sampleServer
    (SavePageContentHandler (some forcedReq) envAfter5s sampleServer).2.1
    (SavePageContentHandler (some forcedReq) envAfter5s sampleServer).2.2 rfl).1

/-- C4. Two saves to the same existing path by different users, the second not forced, the
first answered Saved, with a table whose primary keys are distinct and no failing statement:
evaluated less than 10 seconds after the first save's recorded time the second is answered
Conflict, evaluated 10 seconds or more after it the second is answered Saved. -/
theorem C4_conflict_window (s s1 : Server) (r1 r2 : SaveRequest) (e1 e2 : SaveEnv)
    (log1 : List WsEvent)
    (hids : (s.db.map (fun p => p.ID)).Nodup)
    (h1 : SavePageContentHandler (some r1) e1 s = (Response.saved, s1, log1))
    (hpath : r2.Subdomain = r1.Subdomain) (hkey : r2.UserKey ≠ r1.UserKey)
    (hforce : r2.ForceOverwrite = false)
    (hlookup : e2.faults.lookupErr = false) (hsave : e2.faults.saveErr = false) :
    (e2.sinceNow - e1.recordNow < 10 * Second →
      ∃ c, (SavePageContentHandler (some r2) e2 s1).1 = Response.conflict c) ∧
    (10 * Second ≤ e2.sinceNow - e1.recordNow →
      (SavePageContentHandler (some r2) e2 s1).1 = Response.saved) := by
  have h1' : (SavePageContentHandler (some r1) e1 s).1 = Response.saved := by rw [h1]
  obtain ⟨page, hreq, hp, _, _, hres⟩ := save_saved_inv r1 e1 s h1'
  rw [hres] at h1
  simp only [Prod.mk.injEq, true_and] at h1
  obtain ⟨hs1, _⟩ := h1
  have hdb : s1.db = dbSave s.db { page with Content := GenerateHTML2Save r1.Subdomain r1.Content,
                                             UpdatedAt := e1.pageNow } := by rw [← hs1]
  have htr : s1.LastUpdateConn = GoMap.set s.LastUpdateConn r1.Subdomain
      { UpdatedAt := e1.recordNow, UserKey := r1.UserKey,
        Conn := ((GoMap.get? s.LastUpdateConn r1.Subdomain).getD
          { UpdatedAt := 0, UserKey := "", Conn := none }).Conn } := by rw [← hs1]
  have hreq2 : r2.Subdomain ≠ "" := by rw [hpath]; exact hreq
  have hl1 := GetPageFromURL_ok_no_fault _ _ _ _ hp
  have hp2 := GetPageFromURL_dbSave e1.faults s.db r1.Subdomain page
    (GenerateHTML2Save r1.Subdomain r1.Content) e1.pageNow hids hp
  rw [GetPageFromURL_faults_congr e1.faults e2.faults _ _ (hl1.trans hlookup.symm),
    ← hdb, ← hpath] at hp2
  have hres2 := save_of_found r2 e2 s1 _ hreq2 hp2
  have hflag : ∀ b, conflictFlagged r2 e2 s1 = b ↔
      decide (e2.sinceNow - e1.recordNow < 10 * Second) = b := by
    intro b
    unfold conflictFlagged
    rw [htr, hpath, GoMap.get?_set_self]
    simp only [hforce, timeSince_lt_window]
    have : decide (r1.UserKey ≠ r2.UserKey) = true := by
      simpa using fun h => hkey h.symm
    rw [this]
    simp
  constructor
  · intro hlt
    have hc := (hflag true).mpr (by simpa using hlt)
    rw [hres2, if_pos hc]
    exact ⟨_, rfl⟩
  · intro hge
    have hc := (hflag false).mpr (by simpa using hge)
    rw [hres2, hc, hsave]
    rfl

/-- Witness of C4: after the save of `u1` at clock value 0, the save of `u2` is answered
Conflict 5 seconds later and Saved 10 seconds later. -/
theorem C4_conflict_window_witness :
    (∃ c, (SavePageContentHandler (some sampleReq) envAfter5s
        (SavePageContentHandler (some firstReq) envAt0 freshServer).2.1).1
          = Response.conflict c) ∧
    (SavePageContentHandler (some sampleReq) envAfter10s
        (SavePageContentHandler (some firstReq) envAt0 freshServer).2.1).1 = Response.saved :=
  ⟨(C4_conflict_window freshServer _ firstReq sampleReq envAt0 envAfter5s
      (SavePageContentHandler (some firstReq) envAt0 freshServer).2.2
      (by decide) rfl rfl (by decide) rfl rfl rfl).1 (by decide),
   (C4_conflict_window freshServer _ firstReq sampleReq envAt0 envAfter10s
      (SavePageContentHandler (some firstReq) envAt0 freshServer).2.2
      (by decide) rfl rfl (by decide) rfl rfl rfl).2 (by decide)⟩

/-! ## Claims on the registry and the broadcasts -/

/-- C2 (as the code behaves). When connections `A` and `B` are registered under the same
path and the writes to them succeed, an inbound message `m` of `A` is sent to `B` and also
to `A` itself: `notifyWsClients` receives only the path and the content, so the sender is
not excluded.  The first part is the broadcast on a registry holding both, the second the
whole run of `WebSocketHandler` for `A` with `m` as its only inbound message. -/
theorem C2_inbound_edit_reaches_all_viewers (clients : GoMap Conn String) (A B : Conn)
    (rawParam P m : String) (writeOk : Conn → Bool)
    (hA : writeOk A = true) (hB : writeOk B = true) :
    ((A, P) ∈ clients → (B, P) ∈ clients →
      WsEvent.wrote B m ∈ (notifyWsClients P m writeOk clients).2 ∧
      WsEvent.wrote A m ∈ (notifyWsClients P m writeOk clients).2) ∧
    (A ≠ B → (B, stringsTrim rawParam '/') ∈ clients →
      WsEvent.wrote B m ∈ (WebSocketHandler (some A) rawParam [m] writeOk clients).2 ∧
      WsEvent.wrote A m ∈ (WebSocketHandler (some A) rawParam [m] writeOk clients).2) := by
  constructor
  · intro hAreg hBreg
    exact ⟨rangeClients_wrote P m writeOk clients clients [] B hBreg hB,
      rangeClients_wrote P m writeOk clients clients [] A hAreg hA⟩
  · intro hAB hBreg
    have hA' : (A, stringsTrim rawParam '/') ∈ GoMap.set clients A (stringsTrim rawParam '/') :=
      List.mem_append_right _ (List.mem_singleton_self _)
    have hB' : (B, stringsTrim rawParam '/') ∈ GoMap.set clients A (stringsTrim rawParam '/') := by
      apply List.mem_append_left
      exact List.mem_filter.mpr ⟨hBreg, by simpa using fun h => hAB h.symm⟩
    simp only [WebSocketHandler, WebSocketHandler.readLoop, List.nil_append]
    exact ⟨List.mem_append_left _
        (rangeClients_wrote _ m writeOk _ _ [] B hB' hB),
      List.mem_append_left _
        (rangeClients_wrote _ m writeOk _ _ [] A hA' hA)⟩

/-- Witness of C2: connections 1 and 2 view `team`; the message `hello` of connection 1 is
written to both. -/
theorem C2_inbound_edit_reaches_all_viewers_witness :
    (WsEvent.wrote 2 "hello" ∈
        (notifyWsClients "team" "hello" (fun _ => true) [(1, "team"), (2, "team")]).2 ∧
      WsEvent.wrote 1 "hello" ∈
        (notifyWsClients "team" "hello" (fun _ => true) [(1, "team"), (2, "team")]).2) ∧
    (WsEvent.wrote 2 "hello" ∈
        (WebSocketHandler (some 1) "/team" ["hello"] (fun _ => true) [(2, "team")]).2 ∧
      WsEvent.wrote 1 "hello" ∈
        (WebSocketHandler (some 1) "/team" ["hello"] (fun _ => true) [(2, "team")]).2) :=
  ⟨(C2_inbound_edit_reaches_all_viewers [(1, "team"), (2, "team")] 1 2 "/team" "team" "hello"
      (fun _ => true) rfl rfl).1 (by decide) (by decide),
   (C2_inbound_edit_reaches_all_viewers [(2, "team")] 1 2 "/team" "team" "hello"
      (fun _ => true) rfl rfl).2 (by decide) (by decide)⟩

/-- Counterexample to C2 as stated: connection 2 views `team`, connection 1 connects to
`team` and sends `hello`; all writes succeed, and `hello` is written back to connection 1. -/
theorem C2_sender_receives_own_echo :
    ¬ (WsEvent.wrote 2 "hello" ∈
          (WebSocketHandler (some 1) "team" ["hello"] (fun _ => true) [(2, "team")]).2 ∧
        WsEvent.wrote 1 "hello" ∉
          (WebSocketHandler (some 1) "team" ["hello"] (fun _ => true) [(2, "team")]).2) := by
  decide

/-- C3. If a broadcast, `NotifyClients` or `notifyWsClients`, attempts delivery to a handle
`H` registered under the path and the write to `H` fails, then `H` is not a key of the
registry the broadcast returns, so no path's set of connections includes `H`. -/
theorem C3_failed_delivery_unregisters (fullPath content : String) (writeOk : Conn → Bool)
    (clients : GoMap Conn String) (H : Conn)
    (hreg : (H, fullPath) ∈ clients) (hfail : writeOk H = false) :
    (H ∉ GoMap.keys (NotifyClients fullPath content writeOk clients).1 ∧
      ∀ p, H ∉ connectionsFor p (NotifyClients fullPath content writeOk clients).1) ∧
    (H ∉ GoMap.keys (notifyWsClients fullPath content writeOk clients).1 ∧
      ∀ p, H ∉ connectionsFor p (notifyWsClients fullPath content writeOk clients).1) := by
  have h := (rangeClients_failed_removed fullPath content writeOk clients clients [] H
    hreg hfail).1
  exact ⟨⟨h, fun p hp => h (mem_connectionsFor p _ H hp)⟩,
    ⟨h, fun p hp => h (mem_connectionsFor p _ H hp)⟩⟩

/-- Witness of C3: connections 1 and 2 view `team` and the write to connection 2 fails. -/
theorem C3_failed_delivery_unregisters_witness :
    (2, "team") ∈ [((1 : Conn), "team"), (2, "team")] ∧
    (2 : Conn) ∉ GoMap.keys
      (NotifyClients "team" "final" (fun c => c != 2) [(1, "team"), (2, "team")]).1 :=
  ⟨by decide,
   (C3_failed_delivery_unregisters "team" "final" (fun c => c != 2) [(1, "team"), (2, "team")] 2
      (by decide) rfl).1.1⟩

/-- C9. For every sequence of `clients[conn] = path` and `delete(clients, conn)` operations
the program issues on its initially empty registry, in which each handle is registered at
most once, the set of connections registered under any path, computed after the sequence,
contains no handle that has been unregistered; unregistering an absent handle leaves the
registry unchanged. -/
theorem C9_registry_consistency (ops : List RegistryOp)
    (hnodup : (registeredHandles ops).Nodup) (horder : programOrder [] ops = true) :
    (∀ h, RegistryOp.unregister h ∈ ops →
      ∀ path, h ∉ connectionsFor path (runOps ops [])) ∧
    (∀ (clients : GoMap Conn String) (k : Conn), k ∉ GoMap.keys clients →
      RegistryOp.apply clients (RegistryOp.unregister k) = clients) := by
  constructor
  · intro h hmem path hfinal
    obtain ⟨pre, post, hsplit⟩ := List.append_of_mem hmem
    subst hsplit
    have hbefore : h ∈ registeredHandles pre := by
      rcases programOrder_registered_before h post pre [] horder with hs | hr
      · cases hs
      · exact hr
    exact runOps_absent_after_unregister pre post h [] hnodup hbefore
      (mem_connectionsFor path _ h hfinal)
  · intro clients k hk
    exact GoMap.delete_of_not_mem clients k hk

/-- Witness of C9: connections 1 and 2 register under `team`, a broadcast unregisters
connection 1 and its handler unregisters it again on return; connection 1 is then absent
from the set of `team`. -/
theorem C9_registry_consistency_witness :
    (1 : Conn) ∉ connectionsFor "team"
      (runOps [RegistryOp.register 1 "team", RegistryOp.register 2 "team",
        RegistryOp.unregister 1, RegistryOp.unregister 1] []) :=
  (C9_registry_consistency
    [RegistryOp.register 1 "team", RegistryOp.register 2 "team",
      RegistryOp.unregister 1, RegistryOp.unregister 1]
    (by decide) (by decide)).1 1 (by decide) "team"

/-- C8 (as the code behaves). After a save answered Saved for path `P` with content `c`, on a
table whose primary keys are distinct, with connections `A` and `B` registered under `P`
and the writes to them succeeding: the page record of `P` holds the HTML document
`GenerateHTML2Save P c`, in which the escaped `c` is the body of the textarea, and both `A`
and `B` have been sent `c` itself. -/
theorem C8_saved_stores_document_and_broadcasts (req : SaveRequest) (env : SaveEnv)
    (s s' : Server) (log : List WsEvent) (A B : Conn)
    (hids : (s.db.map (fun p => p.ID)).Nodup)
    (h : SavePageContentHandler (some req) env s = (Response.saved, s', log))
    (hA : (A, req.Subdomain) ∈ s.clients) (hB : (B, req.Subdomain) ∈ s.clients)
    (hwA : env.writeOk A = true) (hwB : env.writeOk B = true) :
    (∃ page, GetPageFromURL env.faults s'.db req.Subdomain = Except.ok page ∧
      page.Content = GenerateHTML2Save req.Subdomain req.Content) ∧
    WsEvent.wrote A req.Content ∈ log ∧ WsEvent.wrote B req.Content ∈ log := by
  have h1 : (SavePageContentHandler (some req) env s).1 = Response.saved := by rw [h]
  obtain ⟨page, _, hp, _, _, hres⟩ := save_saved_inv req env s h1
  rw [hres] at h
  simp only [Prod.mk.injEq, true_and] at h
  obtain ⟨hs', hlog⟩ := h
  have hdb : s'.db = dbSave s.db
      { page with Content := GenerateHTML2Save req.Subdomain req.Content,
                  UpdatedAt := env.pageNow } := by rw [← hs']
  refine ⟨⟨{ page with Content := GenerateHTML2Save req.Subdomain req.Content,
                         UpdatedAt := env.pageNow }, ?_, rfl⟩, ?_, ?_⟩
  · rw [hdb]
    exact GetPageFromURL_dbSave env.faults s.db req.Subdomain page _ _ hids hp
  · rw [← hlog]
    exact rangeClients_wrote _ _ _ _ _ [] A hA hwA
  · rw [← hlog]
    exact rangeClients_wrote _ _ _ _ _ [] B hB hwB

/-- Witness of C8: user `u1` saves `final` to `team`, viewed by connections 1 and 2. -/
theorem C8_saved_stores_document_and_broadcasts_witness :
    (∃ page,
      GetPageFromURL envAt0.faults
        (SavePageContentHandler (some rootReq) envAt0 freshServer).2.1.db "team"
          = Except.ok page ∧
      page.Content = GenerateHTML2Save "team" "final") ∧
    WsEvent.wrote 1 "final" ∈ (SavePageContentHandler (some rootReq) envAt0 freshServer).2.2 ∧
    WsEvent.wrote 2 "final" ∈ (SavePageContentHandler (some rootReq) envAt0 freshServer).2.2 :=
  C8_saved_stores_document_and_broadcasts rootReq envAt0 freshServer
    (SavePageContentHandler (some rootReq) envAt0 freshServer).2.1
    (SavePageContentHandler (some rootReq) envAt0 freshServer).2.2 1 2
    (by decide) rfl (by decide) (by decide) rfl rfl

/-- Counterexample to C8 as stated: user `u1` saves `final` to `team`; the save is answered
Saved and the page record of `team` then holds a content other than `final`. -/
theorem C8_stored_content_is_not_raw :
    (SavePageContentHandler (some rootReq) envAt0 freshServer).1 = Response.saved ∧
    ∃ page,
      GetPageFromURL DBFaults.none
        (SavePageContentHandler (some rootReq) envAt0 freshServer).2.1.db "team"
          = Except.ok page ∧
      page.Content ≠ "final" :=
  ⟨rfl, { Page.zero with ID := 1, FileName := "team",
                         Content := GenerateHTML2Save "team" "final" }, rfl, by decide⟩

/-! ## Claim on the hierarchy limits -/

/-- C10. For every content and every subdomain that does not contain `<textarea`,
`ExtractTextareaContent (GenerateHTML2Save subdomain content)` is the HTML-escaped content,
`html.EscapeString(content)`; a `</textarea>` inside the user's content therefore never cuts
the extracted text short. -/
theorem C10_extract_of_generated (subdomain content : String)
    (hsub : stringsContains subdomain "<textarea" = false) :
    ExtractTextareaContent (GenerateHTML2Save subdomain content) = htmlEscapeString content := by
  unfold ExtractTextareaContent
  rw [findSubmatch1_template subdomain content hsub]

/-- Witness of C10: a content with a closing textarea tag inside is extracted whole, in its
escaped form. -/
theorem C10_extract_of_generated_witness :
    stringsContains "team" "<textarea" = false ∧
    ExtractTextareaContent (GenerateHTML2Save "team" "a</textarea>b")
      = htmlEscapeString "a</textarea>b" ∧
    htmlEscapeString "a</textarea>b" = "a&lt;/textarea&gt;b" :=
  ⟨by decide, C10_extract_of_generated "team" "a</textarea>b" (by decide), by decide⟩


end CollaborativeEditor
